import Mathlib

/-!
Shallow embedding of the telegram-autoposter repository (src/main.py,
src/generate_text.py, src/post_telegram.py, src/post_vk.py,
src/post_pinterest.py, src/app.py) for verifying its specification claims.

Python strings are modelled as Lean `String` / `List Char` (Python `len`
and slicing act on code points, exactly as `List.length` / `List.take` on
`s.data`).  Python's whitespace classes are modelled by their ASCII part.
External HTTP calls are modelled by oracles: a function argument of type
`α → Except String β` — `Except.error` standing for a raised exception.
-/

/-! ### Generic Python string primitives (list-of-character level) -/

/-- Python's whitespace test, restricted to the ASCII whitespace characters
(space, tab, newline, carriage return, vertical tab, form feed). -/
def isPySpace (c : Char) : Bool :=
  c == ' ' || c == '\t' || c == '\n' || c == '\r' || c == Char.ofNat 11 || c == Char.ofNat 12

/-- Embedding of Python `str.strip()` over the character list. -/
def pyStripL (cs : List Char) : List Char :=
  ((cs.dropWhile isPySpace).reverse.dropWhile isPySpace).reverse

/-- `beginsWith pat cs` is true when `pat` is an initial run of `cs`. -/
def beginsWith : List Char → List Char → Bool
  | [], _ => true
  | _ :: _, [] => false
  | p :: ps, c :: cs => p == c && beginsWith ps cs

/-- Embedding of Python's `pat in s` substring test over character lists. -/
def containsSub (pat : List Char) : List Char → Bool
  | [] => beginsWith pat []
  | c :: rest => beginsWith pat (c :: rest) || containsSub pat rest

/-- Fuelled worker for `pyReplaceL`: replaces leftmost non-overlapping
occurrences, exactly as Python `str.replace`.  Every step consumes at least
one input character, so fuel `cs.length` is always enough. -/
def pyReplaceAux (pat rep : List Char) : Nat → List Char → List Char
  | 0, cs => cs
  | _ + 1, [] => []
  | fuel + 1, c :: rest =>
    if beginsWith pat (c :: rest) then
      rep ++ pyReplaceAux pat rep fuel ((c :: rest).drop pat.length)
    else
      c :: pyReplaceAux pat rep fuel rest

/-- Embedding of Python `s.replace(pat, rep)` (all occurrences, leftmost,
non-overlapping) for a non-empty pattern. -/
def pyReplaceL (pat rep cs : List Char) : List Char :=
  pyReplaceAux pat rep cs.length cs

/-- Fuelled worker for Python `s.split(sep)` (split on every occurrence):
the pattern is passed as head and tail so it is non-empty by construction.
Every step consumes at least one input character, so fuel `cs.length` is
always enough; the fuel-exhausted row closes the current field with the
unprocessed remainder. -/
def splitAllAux (p : Char) (ps : List Char) : Nat → List Char → List Char → List (List Char)
  | 0, acc, cs => [acc.reverse ++ cs]
  | _ + 1, acc, [] => [acc.reverse]
  | fuel + 1, acc, c :: rest =>
    if beginsWith (p :: ps) (c :: rest) then
      acc.reverse :: splitAllAux p ps fuel [] (rest.drop ps.length)
    else
      splitAllAux p ps fuel (c :: acc) rest

/-- Embedding of Python `s.split(sep)` for a non-empty separator.  (Python
raises on an empty separator; the `[]` row is never used here.) -/
def splitAllL (pat : List Char) (cs : List Char) : List (List Char) :=
  match pat with
  | [] => [cs]
  | p :: ps => splitAllAux p ps cs.length [] cs

/-- Worker for Python `s.split(sep, 1)` (split only at the first
occurrence). -/
def split1Aux (p : Char) (ps : List Char) (acc : List Char) : List Char → List (List Char)
  | [] => [acc.reverse]
  | c :: rest =>
    if beginsWith (p :: ps) (c :: rest) then
      [acc.reverse, rest.drop ps.length]
    else
      split1Aux p ps (c :: acc) rest

/-- Embedding of Python `s.split(sep, 1)` for a non-empty separator. -/
def split1L (pat : List Char) (cs : List Char) : List (List Char) :=
  match pat with
  | [] => [cs]
  | p :: ps => split1Aux p ps [] cs

/-! ### generate_text.py -/

/-- `DEFAULT_IMAGE_PROMPT_TEMPLATE` of src/generate_text.py. -/
def defaultImagePromptTemplate : String :=
  "Beautiful aesthetic photo related to facial rejuvenation and {idea}, " ++
  "professional photography, soft lighting, skincare"

/-- Embedding of `template.format(idea=idea)` for a template whose only
replacement field is `{idea}` (true of the built-in template and the
templates src/generate_text.py documents). -/
def formatIdea (template idea : String) : String :=
  String.mk (pyReplaceL "{idea}".data idea.data template.data)

/-- Embedding of `image_prompt_template or DEFAULT_IMAGE_PROMPT_TEMPLATE`
of `_parse_response`: Python truthiness, so a missing template AND a
present-but-empty one both fall back to the default template. -/
def orDefaultTemplate (tpl : Option String) : String :=
  match tpl with
  | some t => if t.isEmpty then defaultImagePromptTemplate else t
  | none => defaultImagePromptTemplate

/-- Embedding of `_parse_response` of src/generate_text.py.  With both the
`POST:` and `IMAGE_PROMPT:` markers present the response is split on every
occurrence of `IMAGE_PROMPT:`; `parts[0]` minus all `POST:` occurrences and
`parts[1]` are stripped.  Otherwise the whole stripped response becomes the
post text and the fallback template produces the image prompt. -/
def parseResponse (responseText idea : String) (imagePromptTemplate : Option String) :
    String × String :=
  if containsSub "POST:".data responseText.data &&
      containsSub "IMAGE_PROMPT:".data responseText.data then
    let parts := splitAllL "IMAGE_PROMPT:".data responseText.data
    (String.mk (pyStripL (pyReplaceL "POST:".data [] (parts.headD []))),
     String.mk (pyStripL (parts.getD 1 [])))
  else
    (String.mk (pyStripL responseText.data),
     formatIdea (orDefaultTemplate imagePromptTemplate) idea)

/-- Modelled from the claim's words, for refinement comparison with
`parseResponse`: the post text is the text before the FIRST occurrence of
`IMAGE_PROMPT:` with `POST:` removed and stripped, the image prompt is ALL
the text after that first occurrence, stripped (a split at the first
occurrence only). -/
def claimParseResponse (responseText idea : String) (imagePromptTemplate : Option String) :
    String × String :=
  if containsSub "POST:".data responseText.data &&
      containsSub "IMAGE_PROMPT:".data responseText.data then
    let parts := split1L "IMAGE_PROMPT:".data responseText.data
    (String.mk (pyStripL (pyReplaceL "POST:".data [] (parts.headD []))),
     String.mk (pyStripL (parts.getD 1 [])))
  else
    (String.mk (pyStripL responseText.data),
     formatIdea (orDefaultTemplate imagePromptTemplate) idea)

/-! ### Idea records (src/main.py ideas.json) -/

/-- An idea record `{"idea": ..., "used": ...}`.  `used` is `none` when the
JSON object has no `"used"` key at all; `item.get("used", False)` is
modelled by `used.getD false`. -/
structure Idea where
  idea : String
  used : Option Bool
deriving DecidableEq, Repr

/-- Worker for `get_next_idea`: the `enumerate` counter is carried
explicitly. -/
def getNextIdeaAux : Nat → List Idea → Option (Nat × String)
  | _, [] => none
  | i, r :: rest =>
    if r.used.getD false then getNextIdeaAux (i + 1) rest else some (i, r.idea)

/-- Embedding of `get_next_idea` of src/main.py: `(index, text)` of the
first record whose `used` flag is absent or false, else `none`. -/
def getNextIdea (ideas : List Idea) : Option (Nat × String) :=
  getNextIdeaAux 0 ideas

/-- `ideas[i]["used"] = True`: flips record `i`, leaving every other
record (and an out-of-range list) unchanged. -/
def setUsedAt : List Idea → Nat → List Idea
  | [], _ => []
  | r :: rest, 0 => ⟨r.idea, some true⟩ :: rest
  | r :: rest, n + 1 => r :: setUsedAt rest n

/-- Embedding of the mark-idea-as-used step of `cmd_publish`
(src/main.py lines 334-340): only when the stored index is present and
`idx < len(ideas)` is the record at that index flipped; otherwise the idea
list is left as it is (there is no text fallback on this path). -/
def markIdeaUsedAuto (ideas : List Idea) (idx : Option Nat) : List Idea :=
  match idx with
  | none => ideas
  | some i => if i < ideas.length then setUsedAt ideas i else ideas

/-- Embedding of the mark-idea-as-used step of the manual publish
(src/app.py lines 871-877): the first record with `item["idea"] ==
current_idea and not item.get("used")` is flipped; the stored index is not
consulted. -/
def markIdeaUsedManual : List Idea → String → List Idea
  | [], _ => []
  | r :: rest, t =>
    if r.idea = t ∧ r.used.getD false = false then ⟨r.idea, some true⟩ :: rest
    else r :: markIdeaUsedManual rest t

/-! ### post_telegram.py -/

/-- A Telegram Bot API request issued by `send_post`: `sendPhoto` records
the `caption` form field (absent when the Python `caption` argument is
falsy — `None` or the empty string), `sendMessage` the `text` field. -/
inductive TgCall where
  | sendPhoto : Option String → TgCall
  | sendMessage : String → TgCall
deriving DecidableEq, Repr

/-- `_CAPTION_LIMIT` of src/post_telegram.py. -/
def captionLimit : Nat := 1024

/-- Embedding of `send_post` of src/post_telegram.py.  `respond` is the
Telegram API oracle (one `Except.error` per call that raises).  Returns the
list of requests issued, in order, and the overall result. -/
def telegramSendPost (respond : TgCall → Except String String) (caption : String) :
    List TgCall × Except String String :=
  if caption.length ≤ captionLimit then
    let call := TgCall.sendPhoto (if caption.isEmpty then none else some caption)
    ([call], respond call)
  else
    let firstCall := TgCall.sendPhoto none
    match respond firstCall with
    | Except.error e => ([firstCall], Except.error e)
    | Except.ok _ =>
      let secondCall := TgCall.sendMessage caption
      ([firstCall, secondCall], respond secondCall)

/-- A Telegram oracle that answers every request successfully (used at
concrete inputs). -/
def tgOkOracle : TgCall → Except String String
  | TgCall.sendPhoto _ => Except.ok "photo-response"
  | TgCall.sendMessage _ => Except.ok "message-response"

/-- A 1025-character caption, above the 1024-character limit. -/
def longCaption : String := String.mk (List.replicate 1025 'x')

/-! ### post_vk.py -/

/-- The fields of a `photos.saveWallPhoto` / `photos.saveMessagesPhoto`
response entry that `send_post` consumes.  `accessKey` is `none` when the
response has no `access_key` key (Python truthiness makes a present empty
string behave the same, which `vkAttachment` reproduces). -/
structure VkSaveInfo where
  ownerId : Int
  photoId : Int
  accessKey : Option String
deriving DecidableEq, Repr

/-- Embedding of the attachment-string construction shared by
`_upload_photo_wall` and `_upload_photo_messages` of src/post_vk.py:
`f"photo{owner_id}_{id}"`, with `f"_{access_key}"` appended exactly when
`info.get("access_key")` is truthy (present and non-empty). -/
def vkAttachment (info : VkSaveInfo) : String :=
  let base := "photo" ++ toString info.ownerId ++ "_" ++ toString info.photoId
  match info.accessKey with
  | some k => if k.isEmpty then base else base ++ "_" ++ k
  | none => base

/-- Embedding of the photo-upload loop of `send_post` of src/post_vk.py
(lines 189-206): the Wall method is tried first; on ANY exception the
Messages method is tried; if both raise, their errors are joined and
re-raised.  Each oracle is the corresponding `_upload_photo_*` call up to
and including the save step; its `VkSaveInfo` is turned into the
attachment string.  Returns the list of upload methods attempted, in
order, and the attachment string or the joined error. -/
def vkUploadPhoto (wall messagesUpload : Except String VkSaveInfo) :
    List String × Except String String :=
  match wall with
  | Except.ok info => (["Wall"], Except.ok (vkAttachment info))
  | Except.error e1 =>
    match messagesUpload with
    | Except.ok info => (["Wall", "Messages"], Except.ok (vkAttachment info))
    | Except.error e2 =>
      (["Wall", "Messages"],
       Except.error ("VK photo upload failed: Wall: " ++ e1 ++ "; Messages: " ++ e2))

/-! ### post_pinterest.py -/

/-- After `<` and `b`/`B` and `r`/`R`: consume `\s*` then an optional `/`
then `>`, per the regex `<br\s*/?>` — the closing part. -/
def brClose : List Char → Option (List Char)
  | '/' :: '>' :: rest => some rest
  | '>' :: rest => some rest
  | _ => none

/-- Consume the `\s*` of `<br\s*/?>` and hand over to `brClose`. -/
def brSkipWs : List Char → Option (List Char)
  | [] => none
  | c :: rest => if isPySpace c then brSkipWs rest else brClose (c :: rest)

/-- Match the remainder of `<br\s*/?>` (case-insensitive) right after the
`<`; `some rem` is the input after the match. -/
def brMatch : List Char → Option (List Char)
  | b :: r :: rest =>
    if (b = 'b' ∨ b = 'B') ∧ (r = 'r' ∨ r = 'R') then brSkipWs rest else none
  | _ => none

/-- Fuelled worker replacing each leftmost `<br\s*/?>` match by a newline,
as `re.sub(r"<br\s*/?>", "\n", text, flags=IGNORECASE)` does.  Every step
consumes at least one character, so fuel `cs.length` suffices. -/
def brSubAux : Nat → List Char → List Char
  | 0, cs => cs
  | _ + 1, [] => []
  | fuel + 1, c :: rest =>
    if c = '<' then
      match brMatch rest with
      | some rem => '\n' :: brSubAux fuel rem
      | none => '<' :: brSubAux fuel rest
    else c :: brSubAux fuel rest

/-- `re.sub(r"<br\s*/?>", "\n", text, flags=IGNORECASE)` of `_strip_html`. -/
def brSub (cs : List Char) : List Char := brSubAux cs.length cs

/-- Consume `[^>]*>` (everything up to and including the first `>`). -/
def tagScan : List Char → Option (List Char)
  | [] => none
  | c :: rest => if c = '>' then some rest else tagScan rest

/-- Match `[^>]+>` right after a `<` (the regex `<[^>]+>` needs at least
one non-`>` character before the closing `>`). -/
def tagMatch : List Char → Option (List Char)
  | [] => none
  | c :: rest => if c = '>' then none else tagScan rest

/-- Fuelled worker deleting each leftmost `<[^>]+>` match, as
`re.sub(r"<[^>]+>", "", text)` does. -/
def removeTagsAux : Nat → List Char → List Char
  | 0, cs => cs
  | _ + 1, [] => []
  | fuel + 1, c :: rest =>
    if c = '<' then
      match tagMatch rest with
      | some rem => removeTagsAux fuel rem
      | none => '<' :: removeTagsAux fuel rest
    else c :: removeTagsAux fuel rest

/-- `re.sub(r"<[^>]+>", "", text)` of `_strip_html`. -/
def removeTags (cs : List Char) : List Char := removeTagsAux cs.length cs

/-- The five HTML-entity replacements of `_strip_html`, applied in source
order (`&amp;` first, then `&lt;`, `&gt;`, `&quot;`, `&#39;`). -/
def entitySub (cs : List Char) : List Char :=
  pyReplaceL "&#39;".data [Char.ofNat 39]
    (pyReplaceL "&quot;".data ['"']
      (pyReplaceL "&gt;".data ['>']
        (pyReplaceL "&lt;".data ['<']
          (pyReplaceL "&amp;".data ['&'] cs))))

/-- Embedding of `_strip_html` of src/post_pinterest.py: `<br>` tags to
newlines, remaining tags removed, entities unescaped, then stripped. -/
def stripHtmlL (cs : List Char) : List Char :=
  pyStripL (entitySub (removeTags (brSub cs)))

/-- `_strip_html` at the `String` level. -/
def stripHtml (s : String) : String := String.mk (stripHtmlL s.data)

/-- The `/v5/pins` request body fields that `send_post` of
src/post_pinterest.py builds (`media_source` fields inlined). -/
structure PinPayload where
  boardId : String
  title : String
  description : String
  sourceType : String
  contentType : String
  imageData : String
deriving DecidableEq, Repr

/-- Embedding of `send_post` of src/post_pinterest.py up to the pin
request: the caption is HTML-stripped, split at the first newline
(`plain_text.split("\n", 1)`), the first line truncated to 100 characters
as the title, the remainder truncated to 500 characters as the description
(empty when there is no second part), and the image goes inline as base64
(`imageB64` stands for the encoded file contents) with content type
`image/jpeg`. -/
def pinSendPost (caption imageB64 boardIdArg : String) : PinPayload :=
  let plain := stripHtmlL caption.data
  let lines := split1L ['\n'] plain
  let title := (lines.headD []).take 100
  let description := if 1 < lines.length then (lines.getD 1 []).take 500 else []
  ⟨boardIdArg, String.mk title, String.mk description, "image_base64", "image/jpeg", imageB64⟩

/-! ### main.py publish pipeline -/

/-- Python dict assignment `d[k] = v` on an insertion-ordered association
list: an existing key keeps its position and gets the new value, a new key
goes to the end. -/
def dictInsert : List (String × String) → String → String → List (String × String)
  | [], k, v => [(k, v)]
  | (k', v') :: rest, k, v =>
    if k' = k then (k, v) :: rest else (k', v') :: dictInsert rest k v

/-- Python `d.get(k)` on the association list. -/
def dictGet : List (String × String) → String → Option String
  | [], _ => none
  | (k', v) :: rest, k => if k' = k then some v else dictGet rest k

/-- The four platform names `publish_to_all` of src/main.py dispatches on;
any other target falls through every branch and makes no call. -/
def isAdapterTarget (t : String) : Bool :=
  t == "telegram" || t == "vk" || t == "max" || t == "pinterest"

/-- Worker for `publish_to_all`: walks the target list in order, calls the
adapter oracle for each recognised target, catches an `Except.error` (the
`except Exception` of the source) and moves on, and records
`platform_ids[target] = message_id` on success.  Returns the list of
adapter calls actually made, in order, and the final `platform_ids`
dict. -/
def publishToAllAux (send : String → Except String String) :
    List String → List (String × String) → List String × List (String × String)
  | [], acc => ([], acc)
  | t :: rest, acc =>
    if isAdapterTarget t then
      match send t with
      | Except.ok m =>
        let r := publishToAllAux send rest (dictInsert acc t m)
        (t :: r.1, r.2)
      | Except.error _ =>
        let r := publishToAllAux send rest acc
        (t :: r.1, r.2)
    else
      publishToAllAux send rest acc

/-- Embedding of `publish_to_all` of src/main.py (lines 111-136), with the
per-platform `send_post` call (plus the `r["result"]["message_id"]`
extraction) abstracted as the oracle `send`; the image path and caption are
fixed for the whole run, so they are left out of the oracle's argument. -/
def publishToAll (send : String → Except String String) (targets : List String) :
    List String × List (String × String) :=
  publishToAllAux send targets []

/-- `[t.strip() for t in PUBLISH_TARGETS.split(",") if t.strip()]` of
`publish_to_all`: the configured comma-separated target string parsed into
the target list. -/
def parseTargets (s : String) : List String :=
  (splitAllL [','] s.data).filterMap
    (fun cs => let t := pyStripL cs; if t.isEmpty then none else some (String.mk t))

/-- `platform_ids.get("telegram", list(platform_ids.values())[0])` of
`cmd_publish`: the Telegram message id when present, otherwise the first
success's id (only evaluated when the dict is non-empty). -/
def publishMessageId (pids : List (String × String)) : String :=
  match dictGet pids "telegram" with
  | some m => m
  | none => (pids.headD ("", "")).2

/-- The pending_post.json record (src/main.py `cmd_generate` writes it,
`cmd_publish` consumes it).  Optional fields are `none` where the JSON
holds `null`. -/
structure PendingPost where
  status : String
  createdAt : String
  idea : String
  ideaIndex : Option Nat
  postText : String
  imagePrompt : String
  imageBase64 : String
  textProvider : String
  imageProvider : String
  faceSwapProvider : String
  publishedAt : Option String
  messageId : Option String
  platformIds : List (String × String)
  publishedBy : Option String
deriving DecidableEq, Repr

/-- A history.json entry as `add_history_entry` of src/main.py builds it
(the `platform_ids` key is only added when non-empty; on the publish path
it always is, so the field is always present here). -/
structure HistoryEntry where
  date : String
  idea : String
  postText : String
  textProvider : String
  imageProvider : String
  messageId : String
  platformIds : List (String × String)
deriving DecidableEq, Repr

/-- The three JSON files `cmd_publish` reads and writes:
pending_post.json (`none` when the file does not exist), ideas.json and
history.json. -/
structure AppState where
  pending : Option PendingPost
  ideas : List Idea
  history : List HistoryEntry
deriving DecidableEq, Repr

/-- What one `cmd_publish` run produces: the files afterwards, the process
exit code, and the adapter calls made. -/
structure PubResult where
  state : AppState
  exitCode : Nat
  calls : List String
deriving DecidableEq, Repr

/-- Embedding of `cmd_publish` of src/main.py (lines 301-354).  `send` is
the adapter oracle, `targets` the parsed `PUBLISH_TARGETS`, `now` the
`datetime.now().isoformat()` stamp, `tp`/`ip` the configured
`TEXT_PROVIDER`/`IMAGE_PROVIDER`.  No pending file or a non-"pending"
status exits 0 without calling any adapter; an empty `platform_ids` exits
1 changing nothing; otherwise the idea at the stored index is marked used,
a history entry is appended, and the draft is rewritten with status
"published". -/
def cmdPublish (send : String → Except String String) (targets : List String)
    (now tp ip : String) (st : AppState) : PubResult :=
  match st.pending with
  | none => ⟨st, 0, []⟩
  | some p =>
    if p.status = "pending" then
      let r := publishToAll send targets
      if r.2.isEmpty then ⟨st, 1, r.1⟩
      else
        let messageId := publishMessageId r.2
        let entry : HistoryEntry := ⟨now, p.idea, p.postText, tp, ip, messageId, r.2⟩
        let p2 := { p with
          status := "published", publishedAt := some now,
          messageId := some messageId, platformIds := r.2,
          publishedBy := some "auto" }
        ⟨⟨some p2, markIdeaUsedAuto st.ideas p.ideaIndex, st.history ++ [entry]⟩, 0, r.1⟩
    else ⟨st, 0, []⟩

/-! ### Concrete fixtures used by witnesses and counterexamples -/

/-- An adapter oracle where only Telegram succeeds. -/
def sendTgOnly : String → Except String String :=
  fun t => if t = "telegram" then Except.ok "7" else Except.error "HTTP 500"

/-- An adapter oracle where every platform fails. -/
def sendAllFail : String → Except String String :=
  fun _ => Except.error "HTTP 500"

/-- A concrete pending draft with status "pending" over idea "X" stored at
index 1 — an index that misses a one-element idea list. -/
def pendingDraftIdx1 : PendingPost :=
  ⟨"pending", "2026-01-01T00:00:00", "X", some 1, "Hello", "A photo",
   "aW1n", "claude", "gemini", "", none, none, [], none⟩

/-- A concrete already-published draft. -/
def publishedDraft : PendingPost :=
  ⟨"published", "2026-01-01T00:00:00", "X", some 0, "Hello", "A photo",
   "aW1n", "claude", "gemini", "", some "2026-01-02T00:00:00", some "7",
   [("telegram", "7")], some "auto"⟩

/-- A state whose draft is already published. -/
def statePublished : AppState :=
  ⟨some publishedDraft, [⟨"X", some true⟩], []⟩

/-- A state with a pending draft whose stored idea index (1) is out of
range for its one-element idea list, while the draft's idea text "X" does
match the unused record. -/
def statePendingIdx1 : AppState :=
  ⟨some pendingDraftIdx1, [⟨"X", some false⟩], []⟩

/-! ## Theorems -/

/-! ### Idea selection (C4, C10) -/

theorem getNextIdeaAux_all_used (l : List Idea) :
    ∀ k, (∀ r ∈ l, r.used.getD false = true) → getNextIdeaAux k l = none := by
  induction l with
  | nil => intro k _; rfl
  | cons a rest ih =>
    intro k h
    have ha : a.used.getD false = true := h a (List.mem_cons_self a rest)
    simp only [getNextIdeaAux, ha, if_true]
    exact ih (k + 1) fun r hr => h r (List.mem_cons_of_mem a hr)

theorem getNextIdeaAux_first (l : List Idea) :
    ∀ (i : Nat) (r : Idea) (k : Nat), l[i]? = some r → r.used.getD false = false →
      (∀ j r', j < i → l[j]? = some r' → r'.used.getD false = true) →
      getNextIdeaAux k l = some (k + i, r.idea) := by
  induction l with
  | nil => intro i r k h _ _; simp at h
  | cons a rest ih =>
    intro i r k hget hused hmin
    cases i with
    | zero =>
      simp only [List.getElem?_cons_zero, Option.some.injEq] at hget
      subst hget
      simp only [getNextIdeaAux, hused, Bool.false_eq_true, if_false, Nat.add_zero]
    | succ n =>
      have ha : a.used.getD false = true :=
        hmin 0 a (Nat.succ_pos n) (by simp)
      simp only [getNextIdeaAux, ha, if_true]
      rw [show k + (n + 1) = (k + 1) + n by omega]
      exact ih n r (k + 1) (by simpa using hget) hused
        fun j r' hj hg => hmin (j + 1) r' (by omega) (by simpa using hg)

/-- C4: `get_next_idea` returns the pair (index, text) of the first record
in list order whose used flag is false (or absent), and returns `none` —
not an exception — when the list is empty or every record is used. -/
theorem get_next_idea_first_unused (ideas : List Idea) :
    ((∀ r ∈ ideas, r.used.getD false = true) → getNextIdea ideas = none)
    ∧ (∀ i r, ideas[i]? = some r → r.used.getD false = false →
        (∀ j r', j < i → ideas[j]? = some r' → r'.used.getD false = true) →
        getNextIdea ideas = some (i, r.idea)) := by
  constructor
  · intro h
    exact getNextIdeaAux_all_used ideas 0 h
  · intro i r hget hused hmin
    simpa using getNextIdeaAux_first ideas i r 0 hget hused hmin

/-- Witness for C4: on `[{"idea":"a","used":true}, {"idea":"b","used":false}]`
the selector picks index 1 with text "b"; on an all-used list it yields
`none`. -/
theorem get_next_idea_first_unused_witness :
    getNextIdea [⟨"a", some true⟩, ⟨"b", some false⟩] = some (1, "b")
    ∧ getNextIdea [⟨"a", some true⟩] = none := by
  constructor
  · exact (get_next_idea_first_unused [⟨"a", some true⟩, ⟨"b", some false⟩]).2 1
      ⟨"b", some false⟩ (by decide) (by decide)
      (by
        intro j r' hj hg
        interval_cases j
        simp only [List.getElem?_cons_zero, Option.some.injEq] at hg
        subst hg
        rfl)
  · exact (get_next_idea_first_unused [⟨"a", some true⟩]).1
      (by intro r hr; simp at hr; subst hr; rfl)

theorem getNextIdeaAux_map_default (l : List Idea) :
    ∀ k, getNextIdeaAux k l =
      getNextIdeaAux k (l.map fun r => ⟨r.idea, some (r.used.getD false)⟩) := by
  induction l with
  | nil => intro k; rfl
  | cons a rest ih =>
    intro k
    simp only [List.map_cons, getNextIdeaAux, Option.getD_some]
    cases h : a.used.getD false
    · simp
    · simpa using ih (k + 1)

/-- C10: `get_next_idea` cannot distinguish a record whose "used" key is
missing from one carrying used=false: defaulting every missing flag to
false leaves the result unchanged, and a record with no flag at the head
of the list is returned exactly like an unused one. -/
theorem get_next_idea_missing_used_default (ideas : List Idea) :
    getNextIdea ideas =
      getNextIdea (ideas.map fun r => ⟨r.idea, some (r.used.getD false)⟩)
    ∧ (∀ t rest, getNextIdea (⟨t, none⟩ :: rest) = some (0, t))
    ∧ (∀ t rest, getNextIdea (⟨t, some false⟩ :: rest) = some (0, t)) := by
  refine ⟨getNextIdeaAux_map_default ideas 0, fun t rest => rfl, fun t rest => rfl⟩

/-! ### Telegram caption split (C5) -/

/-- Counterexample to C5 as stated: for the empty caption (length 0 ≤
1024) the single `sendPhoto` request carries NO caption field — `_send_photo`
only attaches the field when the caption is truthy — so it is not "one
sendPhoto call with the caption attached". -/
theorem telegram_empty_caption_counterexample :
    (telegramSendPost tgOkOracle "").1 = [TgCall.sendPhoto none]
    ∧ [TgCall.sendPhoto none] ≠ [TgCall.sendPhoto (some "")] := by
  constructor
  · rfl
  · decide

/-- C5 (amended): for a NON-EMPTY caption of at most 1024 characters,
`send_post` issues exactly one `sendPhoto` request with the caption
attached and returns its response; for an empty caption, one `sendPhoto`
request without a caption field; for a caption over 1024 characters,
first `sendPhoto` without a caption and then — only if that call
succeeded — `sendMessage` with the full text, the result being the
response of the text (second) call. -/
theorem telegram_caption_split (respond : TgCall → Except String String) (caption : String) :
    (caption.isEmpty = false → caption.length ≤ 1024 →
      telegramSendPost respond caption =
        ([TgCall.sendPhoto (some caption)], respond (TgCall.sendPhoto (some caption))))
    ∧ (caption.isEmpty = true →
      telegramSendPost respond caption =
        ([TgCall.sendPhoto none], respond (TgCall.sendPhoto none)))
    ∧ (1024 < caption.length →
      (∀ e, respond (TgCall.sendPhoto none) = Except.error e →
        telegramSendPost respond caption = ([TgCall.sendPhoto none], Except.error e))
      ∧ (∀ r, respond (TgCall.sendPhoto none) = Except.ok r →
        telegramSendPost respond caption =
          ([TgCall.sendPhoto none, TgCall.sendMessage caption],
           respond (TgCall.sendMessage caption)))) := by
  refine ⟨?_, ?_, ?_⟩
  · intro hne hlen
    simp only [telegramSendPost, captionLimit, hlen, if_true, hne,
      Bool.false_eq_true, if_false]
  · intro he
    have hlen : caption.length ≤ 1024 := by
      have : caption = "" := (String.isEmpty_iff caption).mp he
      simp [this]
    simp only [telegramSendPost, captionLimit, hlen, if_true, he, if_true]
  · intro hlen
    have hgt : ¬ caption.length ≤ 1024 := by omega
    constructor
    · intro e herr
      simp only [telegramSendPost, captionLimit, hgt, if_false, herr]
    · intro r hok
      simp only [telegramSendPost, captionLimit, hgt, if_false, hok]

/-- Witness for C5 (amended): a 2-character caption gives one captioned
`sendPhoto`; the 1025-character caption gives photo-without-caption then
`sendMessage`, with the message response reported. -/
theorem telegram_caption_split_witness :
    telegramSendPost tgOkOracle "hi" =
      ([TgCall.sendPhoto (some "hi")], Except.ok "photo-response")
    ∧ telegramSendPost tgOkOracle longCaption =
      ([TgCall.sendPhoto none, TgCall.sendMessage longCaption],
       Except.ok "message-response") := by
  have hlong : 1024 < longCaption.length := by
    have h : longCaption.length = 1025 := by
      show (List.replicate 1025 'x').length = 1025
      rw [List.length_replicate]
    omega
  exact ⟨(telegram_caption_split tgOkOracle "hi").1 rfl (by decide),
    ((telegram_caption_split tgOkOracle longCaption).2.2 hlong).2 "photo-response" rfl⟩

/-! ### VK photo upload (C8) -/

/-- Counterexample to C8 as stated: the Messages upload path is attempted
after the Wall path fails with "VK photo upload returned empty" — the
empty-upload error of `_upload_file_to_server`, not an authorization-scope
error — because the source's `except Exception` falls back on EVERY
exception, not only authorization-scope ones. -/
theorem vk_fallback_counterexample :
    vkUploadPhoto (Except.error "VK photo upload returned empty")
        (Except.ok ⟨-1, 2, none⟩) =
      (["Wall", "Messages"], Except.ok "photo-1_2") := by
  rfl

/-- C8 (amended): the Wall upload path is attempted first and the Messages
path is attempted exactly when the Wall path raises ANY exception (an
authorization-scope error being one instance); in either path the
attachment string is `photo{owner_id}_{id}`, with `_{access_key}` appended
exactly when the save response carries a truthy (present and non-empty)
`access_key`, and with the key segment omitted when it is missing or
empty. -/
theorem vk_upload_fallback_attachment (wall messagesUpload : Except String VkSaveInfo) :
    (∀ info, wall = Except.ok info →
      vkUploadPhoto wall messagesUpload = (["Wall"], Except.ok (vkAttachment info)))
    ∧ (∀ e info, wall = Except.error e → messagesUpload = Except.ok info →
      vkUploadPhoto wall messagesUpload = (["Wall", "Messages"], Except.ok (vkAttachment info)))
    ∧ (∀ e1 e2, wall = Except.error e1 → messagesUpload = Except.error e2 →
      vkUploadPhoto wall messagesUpload = (["Wall", "Messages"],
        Except.error ("VK photo upload failed: Wall: " ++ e1 ++ "; Messages: " ++ e2)))
    ∧ (∀ o i, vkAttachment ⟨o, i, none⟩ = "photo" ++ toString o ++ "_" ++ toString i)
    ∧ (∀ o i, vkAttachment ⟨o, i, some ""⟩ = "photo" ++ toString o ++ "_" ++ toString i)
    ∧ (∀ o i k, k.isEmpty = false → vkAttachment ⟨o, i, some k⟩ =
        "photo" ++ toString o ++ "_" ++ toString i ++ "_" ++ k) := by
  refine ⟨?_, ?_, ?_, fun o i => rfl, fun o i => rfl, ?_⟩
  · intro info h
    subst h
    rfl
  · intro e info h1 h2
    subst h1
    subst h2
    rfl
  · intro e1 e2 h1 h2
    subst h1
    subst h2
    rfl
  · intro o i k hk
    simp only [vkAttachment, hk, Bool.false_eq_true, if_false]

/-- Witness for C8 (amended): concrete successful Wall upload (no
Messages attempt), a fallback run, and the three access-key shapes. -/
theorem vk_upload_fallback_attachment_witness :
    vkUploadPhoto (Except.ok ⟨-9, 4, some "k3y"⟩) (Except.error "unused") =
      (["Wall"], Except.ok "photo-9_4_k3y")
    ∧ vkUploadPhoto (Except.error "a") (Except.error "b") =
      (["Wall", "Messages"], Except.error "VK photo upload failed: Wall: a; Messages: b")
    ∧ vkAttachment ⟨-9, 4, none⟩ = "photo-9_4" := by
  refine ⟨?_, ?_, ?_⟩
  · have h := (vk_upload_fallback_attachment (Except.ok ⟨-9, 4, some "k3y"⟩)
      (Except.error "unused")).1 ⟨-9, 4, some "k3y"⟩ rfl
    have hk := (vk_upload_fallback_attachment (Except.ok ⟨-9, 4, some "k3y"⟩)
      (Except.error "unused")).2.2.2.2.2 (-9) 4 "k3y" rfl
    rw [h, hk]
    rfl
  · exact (vk_upload_fallback_attachment (Except.error "a") (Except.error "b")).2.2.1
      "a" "b" rfl rfl
  · exact (vk_upload_fallback_attachment (Except.error "x") (Except.error "x")).2.2.2.2.1 (-9) 4

/-! ### Pinterest pin construction (C9) -/

theorem split1Aux_single (sep : Char) (cs : List Char) :
    ∀ acc, split1Aux sep [] acc cs =
      if sep ∈ cs then
        [acc.reverse ++ cs.takeWhile (fun c => c ≠ sep),
         (cs.dropWhile (fun c => c ≠ sep)).drop 1]
      else [acc.reverse ++ cs] := by
  induction cs with
  | nil => intro acc; simp [split1Aux]
  | cons c rest ih =>
    intro acc
    by_cases hc : c = sep
    · subst hc
      simp [split1Aux, beginsWith, List.takeWhile_cons, List.dropWhile_cons]
    · have hns : sep ≠ c := fun h => hc h.symm
      have hb : beginsWith [sep] (c :: rest) = false := by
        simp [beginsWith, hns]
      simp only [split1Aux, hb, Bool.false_eq_true, if_false]
      rw [ih (c :: acc)]
      by_cases hm : sep ∈ rest
      · rw [if_pos hm, if_pos (List.mem_cons_of_mem c hm)]
        simp [List.takeWhile_cons, List.dropWhile_cons, hc]
      · rw [if_neg hm, if_neg (by simp [List.mem_cons, hns, hm])]
        simp

theorem split1L_newline (plain : List Char) :
    split1L ['\n'] plain =
      if '\n' ∈ plain then
        [plain.takeWhile (fun c => c ≠ '\n'),
         (plain.dropWhile (fun c => c ≠ '\n')).drop 1]
      else [plain] := by
  have h := split1Aux_single '\n' plain []
  simpa [split1L] using h

theorem pinSendPost_title (caption imageB64 bid : String) :
    (pinSendPost caption imageB64 bid).title =
      String.mk (((split1L ['\n'] (stripHtmlL caption.data)).headD []).take 100) := rfl

theorem pinSendPost_description (caption imageB64 bid : String) :
    (pinSendPost caption imageB64 bid).description =
      String.mk (if 1 < (split1L ['\n'] (stripHtmlL caption.data)).length then
        ((split1L ['\n'] (stripHtmlL caption.data)).getD 1 []).take 500 else []) := rfl

/-- C9: the Pinterest adapter splits the HTML-stripped caption at the
first newline — the title is the first line truncated to at most 100
characters, the description is the remainder truncated to at most 500
characters (the empty string when there is no second line) — and the
image is sent inline as base64 data with the explicit content type
`image/jpeg`. -/
theorem pinterest_title_description (caption imageB64 bid : String) :
    (pinSendPost caption imageB64 bid).title =
      String.mk (((stripHtml caption).data.takeWhile (fun c => c ≠ '\n')).take 100)
    ∧ (pinSendPost caption imageB64 bid).description =
      (if '\n' ∈ (stripHtml caption).data then
        String.mk ((((stripHtml caption).data.dropWhile (fun c => c ≠ '\n')).drop 1).take 500)
      else "")
    ∧ (pinSendPost caption imageB64 bid).title.length ≤ 100
    ∧ (pinSendPost caption imageB64 bid).description.length ≤ 500
    ∧ (pinSendPost caption imageB64 bid).sourceType = "image_base64"
    ∧ (pinSendPost caption imageB64 bid).contentType = "image/jpeg"
    ∧ (pinSendPost caption imageB64 bid).imageData = imageB64
    ∧ (pinSendPost caption imageB64 bid).boardId = bid := by
  have hdata : (stripHtml caption).data = stripHtmlL caption.data := rfl
  rw [pinSendPost_title caption imageB64 bid, pinSendPost_description caption imageB64 bid,
    hdata]
  generalize stripHtmlL caption.data = plain
  rw [split1L_newline]
  by_cases hm : '\n' ∈ plain
  · rw [if_pos hm, if_pos hm]
    refine ⟨rfl, rfl, ?_, ?_, rfl, rfl, rfl, rfl⟩
    · exact List.length_take_le 100 _
    · exact List.length_take_le 500 _
  · rw [if_neg hm, if_neg hm]
    have htw : plain.takeWhile (fun c => c ≠ '\n') = plain := by
      rw [List.takeWhile_eq_self_iff]
      intro x hx
      simp only [ne_eq, decide_eq_true_eq]
      exact fun h => hm (h ▸ hx)
    refine ⟨by rw [htw]; rfl, rfl, ?_, ?_, rfl, rfl, rfl, rfl⟩
    · exact List.length_take_le 100 _
    · show (List.length ([] : List Char)) ≤ 500
      simp

/-! ### Text-provider response parsing (C7) -/

theorem splitAllAux_ne_nil (p : Char) (ps : List Char) :
    ∀ (fuel : Nat) (cs acc : List Char), splitAllAux p ps fuel acc cs ≠ [] := by
  intro fuel
  induction fuel with
  | zero => intro cs acc; simp [splitAllAux]
  | succ f ih =>
    intro cs acc
    match cs with
    | [] => simp [splitAllAux]
    | c :: rest =>
      by_cases hb : beginsWith (p :: ps) (c :: rest) = true
      · simp [splitAllAux, hb]
      · simp only [splitAllAux, hb, Bool.false_eq_true, if_false]
        exact ih rest (c :: acc)

theorem splitAllAux_eq_singleton (p : Char) (ps : List Char) :
    ∀ (fuel : Nat) (cs acc : List Char) (y : List Char),
      splitAllAux p ps fuel acc cs = [y] → y = acc.reverse ++ cs := by
  intro fuel
  induction fuel with
  | zero =>
    intro cs acc y h
    simp only [splitAllAux, List.cons.injEq, and_true] at h
    exact h.symm
  | succ f ih =>
    intro cs acc y h
    match cs with
    | [] =>
      simp only [splitAllAux, List.cons.injEq, and_true] at h
      simp [h.symm]
    | c :: rest =>
      by_cases hb : beginsWith (p :: ps) (c :: rest) = true
      · rw [show splitAllAux p ps (f + 1) acc (c :: rest) =
            acc.reverse :: splitAllAux p ps f [] (rest.drop ps.length) by
          simp [splitAllAux, hb]] at h
        obtain ⟨-, htail⟩ := List.cons.inj h
        exact absurd htail (splitAllAux_ne_nil p ps f (rest.drop ps.length) [])
      · rw [show splitAllAux p ps (f + 1) acc (c :: rest) =
            splitAllAux p ps f (c :: acc) rest by
          simp [splitAllAux, hb]] at h
        have := ih rest (c :: acc) y h
        simpa [List.append_assoc] using this

theorem split1Aux_of_one (p : Char) (ps : List Char) :
    ∀ (fuel : Nat) (cs : List Char), cs.length ≤ fuel → ∀ (acc : List Char) (y : List Char),
      splitAllAux p ps fuel acc cs = [y] → split1Aux p ps acc cs = [y] := by
  intro fuel
  induction fuel with
  | zero =>
    intro cs hlen acc y h
    have hnil : cs = [] := List.length_eq_zero.mp (Nat.le_zero.mp hlen)
    subst hnil
    simp only [splitAllAux, List.append_nil, List.cons.injEq, and_true] at h
    simp [split1Aux, h.symm]
  | succ f ih =>
    intro cs hlen acc y h
    match cs with
    | [] =>
      simp only [splitAllAux, List.cons.injEq, and_true] at h
      simp [split1Aux, h]
    | c :: rest =>
      by_cases hb : beginsWith (p :: ps) (c :: rest) = true
      · rw [show splitAllAux p ps (f + 1) acc (c :: rest) =
            acc.reverse :: splitAllAux p ps f [] (rest.drop ps.length) by
          simp [splitAllAux, hb]] at h
        obtain ⟨-, htail⟩ := List.cons.inj h
        exact absurd htail (splitAllAux_ne_nil p ps f (rest.drop ps.length) [])
      · rw [show splitAllAux p ps (f + 1) acc (c :: rest) =
            splitAllAux p ps f (c :: acc) rest by
          simp [splitAllAux, hb]] at h
        rw [show split1Aux p ps acc (c :: rest) = split1Aux p ps (c :: acc) rest by
          simp [split1Aux, hb]]
        exact ih rest (by simpa using hlen) (c :: acc) y h

theorem split1Aux_of_two (p : Char) (ps : List Char) :
    ∀ (fuel : Nat) (cs : List Char), cs.length ≤ fuel →
      ∀ (acc x y : List Char),
      splitAllAux p ps fuel acc cs = [x, y] → split1Aux p ps acc cs = [x, y] := by
  intro fuel
  induction fuel with
  | zero =>
    intro cs hlen acc x y h
    have hnil : cs = [] := List.length_eq_zero.mp (Nat.le_zero.mp hlen)
    subst hnil
    simp [splitAllAux] at h
  | succ f ih =>
    intro cs hlen acc x y h
    match cs with
    | [] => simp [splitAllAux] at h
    | c :: rest =>
      by_cases hb : beginsWith (p :: ps) (c :: rest) = true
      · rw [show splitAllAux p ps (f + 1) acc (c :: rest) =
            acc.reverse :: splitAllAux p ps f [] (rest.drop ps.length) by
          simp [splitAllAux, hb]] at h
        obtain ⟨hx, htail⟩ := List.cons.inj h
        have hy : y = rest.drop ps.length := by
          have := splitAllAux_eq_singleton p ps f (rest.drop ps.length) [] y htail
          simpa using this
        rw [show split1Aux p ps acc (c :: rest) = [acc.reverse, rest.drop ps.length] by
          simp [split1Aux, hb]]
        rw [hx, hy]
      · rw [show splitAllAux p ps (f + 1) acc (c :: rest) =
            splitAllAux p ps f (c :: acc) rest by
          simp [splitAllAux, hb]] at h
        rw [show split1Aux p ps acc (c :: rest) = split1Aux p ps (c :: acc) rest by
          simp [split1Aux, hb]]
        exact ih rest (by simpa using hlen) (c :: acc) x y h

theorem split1L_eq_splitAllL (pat cs : List Char)
    (h : (splitAllL pat cs).length ≤ 2) : split1L pat cs = splitAllL pat cs := by
  match pat with
  | [] => rfl
  | p :: ps =>
    show split1Aux p ps [] cs = splitAllAux p ps cs.length [] cs
    match hall : splitAllAux p ps cs.length [] cs with
    | [] => exact absurd hall (splitAllAux_ne_nil p ps cs.length cs [])
    | [y] => exact split1Aux_of_one p ps cs.length cs (Nat.le_refl _) [] y hall
    | [x, y] => exact split1Aux_of_two p ps cs.length cs (Nat.le_refl _) [] x y hall
    | _ :: _ :: _ :: _ =>
      rw [show splitAllL (p :: ps) cs = splitAllAux p ps cs.length [] cs from rfl,
        hall] at h
      simp at h

/-- C7 (amended): `_parse_response` behaves exactly as the claim states
whenever the marker branch splits the response into at most two parts —
that is, whenever `IMAGE_PROMPT:` occurs at most once — and always in the
fallback branch; with several `IMAGE_PROMPT:` occurrences the image
prompt is only the text between the first two occurrences, not all the
text after the first one. -/
theorem parse_response_first_marker (responseText idea : String) (tpl : Option String)
    (h : (containsSub "POST:".data responseText.data &&
        containsSub "IMAGE_PROMPT:".data responseText.data) = true →
      (splitAllL "IMAGE_PROMPT:".data responseText.data).length ≤ 2) :
    parseResponse responseText idea tpl = claimParseResponse responseText idea tpl := by
  by_cases hg : (containsSub "POST:".data responseText.data &&
      containsSub "IMAGE_PROMPT:".data responseText.data) = true
  · simp only [parseResponse, claimParseResponse, hg, if_true,
      split1L_eq_splitAllL _ _ (h hg)]
  · simp only [parseResponse, claimParseResponse, if_neg hg]

/-- Witness for C7 (amended): the spec's end-to-end response — one
occurrence of each marker — parses identically under the code's
all-occurrences split and the claim's first-occurrence split, yielding
post text "Hello" and image prompt "A photo"; a marker-free reply falls
back to the template with the idea substituted — the default one both
when no template is configured and when the configured template is the
empty string (Python `or` truthiness). -/
theorem parse_response_first_marker_witness :
    parseResponse "POST:\nHello\n\nIMAGE_PROMPT:\nA photo" "X" none =
      claimParseResponse "POST:\nHello\n\nIMAGE_PROMPT:\nA photo" "X" none
    ∧ parseResponse "POST:\nHello\n\nIMAGE_PROMPT:\nA photo" "X" none =
      ("Hello", "A photo")
    ∧ parseResponse "just text" "X" none =
      ("just text", formatIdea defaultImagePromptTemplate "X")
    ∧ parseResponse "just text" "X" (some "") =
      ("just text", formatIdea defaultImagePromptTemplate "X")
    ∧ parseResponse "just text" "X" (some "photo of {idea}") =
      ("just text", "photo of X") := by
  refine ⟨parse_response_first_marker "POST:\nHello\n\nIMAGE_PROMPT:\nA photo" "X" none
    (fun _ => by decide), by decide, by decide, by decide, by decide⟩

/-- Counterexample to C7 as stated: with two `IMAGE_PROMPT:` occurrences
the code returns only the text between them ("b"), while the claim's
"text after IMAGE_PROMPT:" reading gives "b IMAGE_PROMPT: c". -/
theorem parse_response_counterexample :
    parseResponse "POST: a IMAGE_PROMPT: b IMAGE_PROMPT: c" "i" none = ("a", "b")
    ∧ claimParseResponse "POST: a IMAGE_PROMPT: b IMAGE_PROMPT: c" "i" none =
      ("a", "b IMAGE_PROMPT: c")
    ∧ ("b" : String) ≠ "b IMAGE_PROMPT: c" := by
  refine ⟨by decide, by decide, by decide⟩

/-! ### Multi-platform fan-out (C3) -/

theorem dictGet_dictInsert (m : List (String × String)) (k v p : String) :
    dictGet (dictInsert m k v) p = if k = p then some v else dictGet m p := by
  induction m with
  | nil => simp [dictInsert, dictGet]
  | cons kv rest ih =>
    obtain ⟨k', v'⟩ := kv
    by_cases hk : k' = k
    · subst hk
      by_cases hp : k' = p
      · simp [dictInsert, dictGet, hp]
      · simp [dictInsert, dictGet, hp]
    · by_cases hp : k' = p
      · subst hp
        have hne : ¬ k = k' := fun h => hk h.symm
        simp [dictInsert, dictGet, hk, hne]
      · simp [dictInsert, dictGet, hk, hp, ih]

theorem dictInsert_cons_pos (k' v' k v : String) (rest : List (String × String))
    (h : k' = k) : dictInsert ((k', v') :: rest) k v = (k, v) :: rest := by
  simp only [dictInsert, if_pos h]

theorem dictInsert_cons_neg (k' v' k v : String) (rest : List (String × String))
    (h : ¬ k' = k) :
    dictInsert ((k', v') :: rest) k v = (k', v') :: dictInsert rest k v := by
  simp only [dictInsert, if_neg h]

theorem mem_keys_dictInsert (m : List (String × String)) (k v x : String) :
    x ∈ (dictInsert m k v).map Prod.fst ↔ x ∈ m.map Prod.fst ∨ x = k := by
  induction m with
  | nil => simp [dictInsert]
  | cons kv rest ih =>
    obtain ⟨k', v'⟩ := kv
    by_cases hk : k' = k
    · rw [dictInsert_cons_pos k' v' k v rest hk]
      subst hk
      simp only [List.map_cons, List.mem_cons]
      tauto
    · rw [dictInsert_cons_neg k' v' k v rest hk]
      simp only [List.map_cons, List.mem_cons, ih]
      tauto

theorem keys_nodup_dictInsert (m : List (String × String)) (k v : String)
    (h : (m.map Prod.fst).Nodup) : ((dictInsert m k v).map Prod.fst).Nodup := by
  induction m with
  | nil => simp [dictInsert]
  | cons kv rest ih =>
    obtain ⟨k', v'⟩ := kv
    simp only [List.map_cons, List.nodup_cons] at h
    by_cases hk : k' = k
    · rw [dictInsert_cons_pos k' v' k v rest hk]
      subst hk
      simp only [List.map_cons, List.nodup_cons]
      exact h
    · rw [dictInsert_cons_neg k' v' k v rest hk]
      simp only [List.map_cons, List.nodup_cons, mem_keys_dictInsert]
      exact ⟨by rintro (hmem | rfl); exacts [h.1 hmem, hk rfl], ih h.2⟩

theorem publishToAllAux_calls (send : String → Except String String) (ts : List String) :
    ∀ acc, (publishToAllAux send ts acc).1 = ts.filter isAdapterTarget := by
  induction ts with
  | nil => intro acc; rfl
  | cons t rest ih =>
    intro acc
    by_cases ht : isAdapterTarget t = true
    · cases hsend : send t with
      | ok m => simp [publishToAllAux, ht, hsend, List.filter_cons, ih]
      | error e => simp [publishToAllAux, ht, hsend, List.filter_cons, ih]
    · simp [publishToAllAux, ht, List.filter_cons, ih]

theorem publishToAllAux_keys_nodup (send : String → Except String String)
    (ts : List String) :
    ∀ acc, (acc.map Prod.fst).Nodup →
      ((publishToAllAux send ts acc).2.map Prod.fst).Nodup := by
  induction ts with
  | nil => intro acc h; exact h
  | cons t rest ih =>
    intro acc h
    by_cases ht : isAdapterTarget t = true
    · cases hsend : send t with
      | ok m =>
        simp only [publishToAllAux, ht, if_true, hsend]
        exact ih (dictInsert acc t m) (keys_nodup_dictInsert acc t m h)
      | error e =>
        simp only [publishToAllAux, ht, if_true, hsend]
        exact ih acc h
    · simp only [publishToAllAux, ht, Bool.false_eq_true, if_false]
      exact ih acc h

theorem publishToAllAux_lookup_frame (send : String → Except String String)
    (ts : List String) (p : String) :
    ∀ acc, (p ∉ ts ∨ isAdapterTarget p = false ∨ ∀ m, send p ≠ Except.ok m) →
      dictGet (publishToAllAux send ts acc).2 p = dictGet acc p := by
  induction ts with
  | nil => intro acc _; rfl
  | cons t rest ih =>
    intro acc hcond
    have htail : p ∉ rest ∨ isAdapterTarget p = false ∨ ∀ m, send p ≠ Except.ok m := by
      rcases hcond with hmem | h | h
      · exact Or.inl fun hr => hmem (List.mem_cons_of_mem t hr)
      · exact Or.inr (Or.inl h)
      · exact Or.inr (Or.inr h)
    by_cases ht : isAdapterTarget t = true
    · cases hsend : send t with
      | ok m =>
        simp only [publishToAllAux, ht, if_true, hsend]
        rw [ih (dictInsert acc t m) htail, dictGet_dictInsert]
        have hne : ¬ t = p := by
          intro hpt
          subst hpt
          rcases hcond with hmem | h | h
          · exact hmem (List.mem_cons_self t rest)
          · rw [ht] at h; cases h
          · exact h m hsend
        rw [if_neg hne]
      | error e =>
        simp only [publishToAllAux, ht, if_true, hsend]
        exact ih acc htail
    · simp only [publishToAllAux, ht, Bool.false_eq_true, if_false]
      exact ih acc htail

theorem publishToAllAux_lookup_ok (send : String → Except String String)
    (ts : List String) (p m : String) :
    ∀ acc, p ∈ ts → isAdapterTarget p = true → send p = Except.ok m →
      dictGet (publishToAllAux send ts acc).2 p = some m := by
  induction ts with
  | nil => intro acc hmem; cases hmem
  | cons t rest ih =>
    intro acc hmem had hok
    by_cases hpt : p = t
    · subst hpt
      simp only [publishToAllAux, had, if_true, hok]
      by_cases hrest : p ∈ rest
      · exact ih (dictInsert acc p m) hrest had hok
      · rw [publishToAllAux_lookup_frame send rest p (dictInsert acc p m) (Or.inl hrest),
          dictGet_dictInsert, if_pos rfl]
    · have hmem' : p ∈ rest := by
        rcases List.mem_cons.mp hmem with h | h
        · exact absurd h hpt
        · exact h
      by_cases ht : isAdapterTarget t = true
      · cases hsend : send t with
        | ok mt =>
          simp only [publishToAllAux, ht, if_true, hsend]
          exact ih (dictInsert acc t mt) hmem' had hok
        | error e =>
          simp only [publishToAllAux, ht, if_true, hsend]
          exact ih acc hmem' had hok
      · simp only [publishToAllAux, ht, Bool.false_eq_true, if_false]
        exact ih acc hmem' had hok

/-- C3: `publish_to_all` attempts the configured targets in the fixed list
order (unrecognised names make no call), a platform call that raises is
caught and does not prevent the later platforms from being attempted, and
the returned `platform_ids` map holds exactly one `platform ↦ message_id`
entry for exactly the recognised platforms whose call succeeded. -/
theorem publish_to_all_fanout (send : String → Except String String) (targets : List String) :
    (publishToAll send targets).1 = targets.filter isAdapterTarget
    ∧ ((publishToAll send targets).2.map Prod.fst).Nodup
    ∧ ∀ p m, dictGet (publishToAll send targets).2 p = some m ↔
        (p ∈ targets ∧ isAdapterTarget p = true ∧ send p = Except.ok m) := by
  refine ⟨publishToAllAux_calls send targets [],
    publishToAllAux_keys_nodup send targets [] (by simp), ?_⟩
  intro p m
  simp only [publishToAll]
  constructor
  · intro hget
    by_cases hmem : p ∈ targets
    · by_cases had : isAdapterTarget p = true
      · cases hsend : send p with
        | ok m' =>
          have hthis := publishToAllAux_lookup_ok send targets p m' [] hmem had hsend
          rw [hthis] at hget
          obtain rfl : m' = m := by injection hget
          exact ⟨hmem, had, rfl⟩
        | error e =>
          rw [publishToAllAux_lookup_frame send targets p []
            (Or.inr (Or.inr fun m' h => by rw [hsend] at h; cases h))] at hget
          cases hget
      · rw [publishToAllAux_lookup_frame send targets p []
          (Or.inr (Or.inl (by simpa using had)))] at hget
        cases hget
    · rw [publishToAllAux_lookup_frame send targets p [] (Or.inl hmem)] at hget
      cases hget
  · rintro ⟨hmem, had, hok⟩
    exact publishToAllAux_lookup_ok send targets p m [] hmem had hok

/-- Witness for C3: with targets `["vk", "bogus", "telegram"]` and an
oracle where only Telegram succeeds, the calls made are `["vk",
"telegram"]` (in order; "bogus" is not dispatched), the map holds
Telegram's id, and there is no VK entry. -/
theorem publish_to_all_fanout_witness :
    (publishToAll sendTgOnly ["vk", "bogus", "telegram"]).1 = ["vk", "telegram"]
    ∧ dictGet (publishToAll sendTgOnly ["vk", "bogus", "telegram"]).2 "telegram" = some "7"
    ∧ dictGet (publishToAll sendTgOnly ["vk", "bogus", "telegram"]).2 "vk" = none := by
  have h := publish_to_all_fanout sendTgOnly ["vk", "bogus", "telegram"]
  refine ⟨h.1.trans (by decide), (h.2.2 "telegram" "7").mpr ⟨by decide, by decide, rfl⟩,
    by decide⟩

/-! ### cmd_publish (C1, C2, C6) -/

theorem cmdPublish_none (send : String → Except String String) (targets : List String)
    (now tp ip : String) (ideas : List Idea) (hist : List HistoryEntry) :
    cmdPublish send targets now tp ip ⟨none, ideas, hist⟩ =
      ⟨⟨none, ideas, hist⟩, 0, []⟩ := rfl

theorem cmdPublish_skip (send : String → Except String String) (targets : List String)
    (now tp ip : String) (p : PendingPost) (ideas : List Idea) (hist : List HistoryEntry)
    (hs : ¬ p.status = "pending") :
    cmdPublish send targets now tp ip ⟨some p, ideas, hist⟩ =
      ⟨⟨some p, ideas, hist⟩, 0, []⟩ := by
  simp only [cmdPublish, if_neg hs]

theorem cmdPublish_fail (send : String → Except String String) (targets : List String)
    (now tp ip : String) (p : PendingPost) (ideas : List Idea) (hist : List HistoryEntry)
    (hs : p.status = "pending") (he : (publishToAll send targets).2.isEmpty = true) :
    cmdPublish send targets now tp ip ⟨some p, ideas, hist⟩ =
      ⟨⟨some p, ideas, hist⟩, 1, (publishToAll send targets).1⟩ := by
  simp only [cmdPublish, if_pos hs, he, if_true]

theorem cmdPublish_success (send : String → Except String String) (targets : List String)
    (now tp ip : String) (p : PendingPost) (ideas : List Idea) (hist : List HistoryEntry)
    (hs : p.status = "pending") (he : (publishToAll send targets).2.isEmpty = false) :
    cmdPublish send targets now tp ip ⟨some p, ideas, hist⟩ =
      ⟨⟨some { p with
            status := "published",
            publishedAt := some now,
            messageId := some (publishMessageId (publishToAll send targets).2),
            platformIds := (publishToAll send targets).2,
            publishedBy := some "auto" },
          markIdeaUsedAuto ideas p.ideaIndex,
          hist ++ [⟨now, p.idea, p.postText, tp, ip,
            publishMessageId (publishToAll send targets).2,
            (publishToAll send targets).2⟩]⟩,
        0, (publishToAll send targets).1⟩ := by
  simp only [cmdPublish, if_pos hs, he, Bool.false_eq_true, if_false]

/-- C1: publishing a draft whose status is not "pending" (in particular an
already-published one) is a no-op: no adapter call is made, the three
stores are unchanged and the exit code is 0; consequently publishing is
idempotent — whenever a `cmd_publish` run exits 0, running it again (with
any oracle, target list or timestamps) changes nothing, makes no call and
exits 0 again. -/
theorem publish_nonpending_noop :
    (∀ (send : String → Except String String) (targets : List String) (now tp ip : String)
      (st : AppState) (p : PendingPost), st.pending = some p → p.status ≠ "pending" →
      cmdPublish send targets now tp ip st = ⟨st, 0, []⟩)
    ∧ (∀ (send send2 : String → Except String String) (targets targets2 : List String)
      (now tp ip now2 tp2 ip2 : String) (st : AppState),
      (cmdPublish send targets now tp ip st).exitCode = 0 →
      cmdPublish send2 targets2 now2 tp2 ip2 (cmdPublish send targets now tp ip st).state =
        ⟨(cmdPublish send targets now tp ip st).state, 0, []⟩) := by
  constructor
  · intro send targets now tp ip st p hp hs
    obtain ⟨pend, ideas, hist⟩ := st
    cases pend with
    | none => cases hp
    | some q =>
      obtain rfl : q = p := by injection hp
      exact cmdPublish_skip send targets now tp ip q ideas hist hs
  · intro send send2 targets targets2 now tp ip now2 tp2 ip2 st hexit
    obtain ⟨pend, ideas, hist⟩ := st
    cases pend with
    | none =>
      rw [cmdPublish_none send targets now tp ip ideas hist] at hexit ⊢
      exact cmdPublish_none send2 targets2 now2 tp2 ip2 ideas hist
    | some p =>
      by_cases hs : p.status = "pending"
      · cases he : (publishToAll send targets).2.isEmpty with
        | true =>
          rw [cmdPublish_fail send targets now tp ip p ideas hist hs he] at hexit
          cases hexit
        | false =>
          rw [cmdPublish_success send targets now tp ip p ideas hist hs he]
          exact cmdPublish_skip send2 targets2 now2 tp2 ip2 _ _ _ (by simp)
      · rw [cmdPublish_skip send targets now tp ip p ideas hist hs]
        exact cmdPublish_skip send2 targets2 now2 tp2 ip2 p ideas hist hs

/-- Witness for C1: on a state holding an already-published draft,
`cmd_publish` returns the state unchanged with exit code 0 and an empty
call list. -/
theorem publish_nonpending_noop_witness :
    cmdPublish sendTgOnly ["telegram"] "2026-01-03T00:00:00" "claude" "gemini"
      statePublished = ⟨statePublished, 0, []⟩ :=
  publish_nonpending_noop.1 sendTgOnly ["telegram"] "2026-01-03T00:00:00" "claude"
    "gemini" statePublished publishedDraft rfl (by decide)

theorem publishToAllAux_all_fail (send : String → Except String String)
    (ts : List String) (hfail : ∀ t ∈ ts, ∀ m, send t ≠ Except.ok m) :
    ∀ acc, (publishToAllAux send ts acc).2 = acc := by
  induction ts with
  | nil => intro acc; rfl
  | cons t rest ih =>
    intro acc
    have htail : ∀ t' ∈ rest, ∀ m, send t' ≠ Except.ok m :=
      fun t' ht' => hfail t' (List.mem_cons_of_mem t ht')
    by_cases ht : isAdapterTarget t = true
    · cases hsend : send t with
      | ok m => exact absurd hsend (hfail t (List.mem_cons_self t rest) m)
      | error e =>
        simp only [publishToAllAux, ht, if_true, hsend]
        exact ih htail acc
    · simp only [publishToAllAux, ht, Bool.false_eq_true, if_false]
      exact ih htail acc

/-- C2: when every platform call fails (so `publish_to_all` returns the
empty map), `cmd_publish` exits 1 and performs none of the success-side
writes — the draft stays exactly as it was (status "pending"), no idea is
flipped and no history entry is appended — so the publish can be
retried. -/
theorem publish_total_failure (send : String → Except String String)
    (targets : List String) (now tp ip : String) (st : AppState) (p : PendingPost)
    (h1 : st.pending = some p) (h2 : p.status = "pending")
    (h3 : ∀ t ∈ targets, ∀ m, send t ≠ Except.ok m) :
    cmdPublish send targets now tp ip st = ⟨st, 1, targets.filter isAdapterTarget⟩
    ∧ (publishToAll send targets).2 = [] := by
  have hempty : (publishToAll send targets).2 = [] :=
    publishToAllAux_all_fail send targets h3 []
  obtain ⟨pend, ideas, hist⟩ := st
  cases pend with
  | none => cases h1
  | some q =>
    obtain rfl : q = p := by injection h1
    refine ⟨?_, hempty⟩
    have hcalls : (publishToAll send targets).1 = targets.filter isAdapterTarget :=
      publishToAllAux_calls send targets []
    rw [cmdPublish_fail send targets now tp ip q ideas hist h2 (by rw [hempty]; rfl),
      hcalls]

/-- Witness for C2: with every platform failing, a concrete pending state
is returned untouched with exit code 1. -/
theorem publish_total_failure_witness :
    cmdPublish sendAllFail ["telegram", "vk"] "2026-01-02T00:00:00" "claude" "gemini"
      statePendingIdx1 = ⟨statePendingIdx1, 1, ["telegram", "vk"]⟩
    ∧ (publishToAll sendAllFail ["telegram", "vk"]).2 = [] :=
  publish_total_failure sendAllFail ["telegram", "vk"] "2026-01-02T00:00:00" "claude"
    "gemini" statePendingIdx1 pendingDraftIdx1 rfl rfl
    (by intro t _ m hc; simp [sendAllFail] at hc)

theorem setUsedAt_getElem? (l : List Idea) :
    ∀ i j, (setUsedAt l i)[j]? =
      if j = i then l[i]?.map (fun r => Idea.mk r.idea (some true)) else l[j]? := by
  induction l with
  | nil =>
    intro i j
    by_cases h : j = i <;> simp [setUsedAt, h]
  | cons r rest ih =>
    intro i j
    cases i with
    | zero =>
      cases j with
      | zero => simp [setUsedAt]
      | succ n => simp [setUsedAt]
    | succ m =>
      cases j with
      | zero => simp [setUsedAt]
      | succ n =>
        have := ih m n
        by_cases h : n = m
        · subst h
          simp only [setUsedAt, List.getElem?_cons_succ, this, if_pos rfl]
        · have h' : ¬ (n + 1 = m + 1) := fun hh => h (by omega)
          simp only [setUsedAt, List.getElem?_cons_succ, this, if_neg h, if_neg h']

/-- C6 (amended): on the auto publish path (`cmd_publish`) the idea is
marked used by the stored index ALONE — when `idea_index` is in range the
record at that index (and no other) gets used=true, and when the index is
missing or out of range NO idea is marked, there being no text fallback on
that path; the text-equality match exists only on the manual (app.py)
publish path, which ignores the index and flips exactly the first unused
record whose text equals the published idea (no record if none
matches). -/
theorem mark_idea_used_characterization :
    (∀ (ideas : List Idea) (i j : Nat), i < ideas.length →
      (markIdeaUsedAuto ideas (some i))[j]? =
        (if j = i then ideas[i]?.map (fun r => Idea.mk r.idea (some true)) else ideas[j]?))
    ∧ (∀ (ideas : List Idea) (i : Nat), ¬ i < ideas.length →
      markIdeaUsedAuto ideas (some i) = ideas)
    ∧ (∀ ideas : List Idea, markIdeaUsedAuto ideas none = ideas)
    ∧ (∀ (ideas : List Idea) (t : String),
      (markIdeaUsedManual ideas t = ideas
        ∧ ∀ r ∈ ideas, ¬(r.idea = t ∧ r.used.getD false = false))
      ∨ ∃ (j : Nat) (r : Idea), ideas[j]? = some r ∧ r.idea = t ∧ r.used.getD false = false
        ∧ (∀ (k : Nat) (r' : Idea), k < j → ideas[k]? = some r' →
            ¬(r'.idea = t ∧ r'.used.getD false = false))
        ∧ ∀ k, (markIdeaUsedManual ideas t)[k]? =
            (if k = j then some (Idea.mk r.idea (some true)) else ideas[k]?)) := by
  refine ⟨?_, ?_, fun ideas => rfl, ?_⟩
  · intro ideas i j hi
    simp only [markIdeaUsedAuto, if_pos hi]
    exact setUsedAt_getElem? ideas i j
  · intro ideas i hi
    simp only [markIdeaUsedAuto, if_neg hi]
  · intro ideas t
    induction ideas with
    | nil => exact Or.inl ⟨rfl, by simp⟩
    | cons r rest ih =>
      by_cases hm : r.idea = t ∧ r.used.getD false = false
      · refine Or.inr ⟨0, r, List.getElem?_cons_zero, hm.1, hm.2,
          fun k r' hk => absurd hk (Nat.not_lt_zero k), ?_⟩
        intro k
        rw [show markIdeaUsedManual (r :: rest) t = Idea.mk r.idea (some true) :: rest by
          simp only [markIdeaUsedManual, if_pos hm]]
        cases k with
        | zero => simp
        | succ n => simp
      · rw [show markIdeaUsedManual (r :: rest) t = r :: markIdeaUsedManual rest t by
          simp only [markIdeaUsedManual, if_neg hm]]
        rcases ih with ⟨heq, hnone⟩ | ⟨j, rj, hget, hidea, hused, hmin, hchar⟩
        · refine Or.inl ⟨by rw [heq], ?_⟩
          intro x hx
          rcases List.mem_cons.mp hx with rfl | hx'
          · exact hm
          · exact hnone x hx'
        · refine Or.inr ⟨j + 1, rj, by simpa using hget, hidea, hused, ?_, ?_⟩
          · intro k r' hk hg
            cases k with
            | zero =>
              simp only [List.getElem?_cons_zero, Option.some.injEq] at hg
              subst hg
              exact hm
            | succ n =>
              exact hmin n r' (by omega) (by simpa using hg)
          · intro k
            cases k with
            | zero =>
              simp only [List.getElem?_cons_zero, if_neg (by omega : ¬ (0 = j + 1))]
            | succ n =>
              have := hchar n
              by_cases hnj : n = j
              · subst hnj
                simp only [List.getElem?_cons_succ, this, if_pos rfl]
              · have h' : ¬ (n + 1 = j + 1) := fun hh => hnj (by omega)
                simp only [List.getElem?_cons_succ, this, if_neg hnj, if_neg h']

/-- Witness for C6 (amended): an in-range index flips exactly that
record; an out-of-range index flips nothing; the manual path flips the
first UNUSED record matching the text, skipping a used one with the same
text. -/
theorem mark_idea_used_characterization_witness :
    markIdeaUsedAuto [Idea.mk "a" (some false)] (some 5) = [Idea.mk "a" (some false)]
    ∧ markIdeaUsedAuto [Idea.mk "a" (some false), Idea.mk "b" (some false)] (some 1) =
        [Idea.mk "a" (some false), Idea.mk "b" (some true)]
    ∧ markIdeaUsedManual [Idea.mk "a" (some true), Idea.mk "a" none] "a" =
        [Idea.mk "a" (some true), Idea.mk "a" (some true)] := by
  refine ⟨mark_idea_used_characterization.2.1 [Idea.mk "a" (some false)] 5 (by decide),
    ?_, by decide⟩
  have h := mark_idea_used_characterization.1
    [Idea.mk "a" (some false), Idea.mk "b" (some false)] 1
  apply List.ext_getElem?
  intro j
  rw [h j (by decide)]
  match j with
  | 0 => decide
  | 1 => decide
  | n + 2 => simp

/-- Counterexample to C6 as stated: a successful auto publish (exit code
0) whose stored `idea_index` (1) misses the one-element idea list leaves
the referenced idea "X" UNmarked — `cmd_publish` has no text-equality
fallback, so no idea at all is flipped. -/
theorem publish_index_miss_counterexample :
    (cmdPublish sendTgOnly ["telegram"] "2026-01-02T00:00:00" "claude" "gemini"
      statePendingIdx1).exitCode = 0
    ∧ (cmdPublish sendTgOnly ["telegram"] "2026-01-02T00:00:00" "claude" "gemini"
      statePendingIdx1).state.ideas = [Idea.mk "X" (some false)]
    ∧ statePendingIdx1.pending.map PendingPost.idea = some "X"
    ∧ Idea.mk "X" (some false) ≠ Idea.mk "X" (some true) := by
  refine ⟨rfl, rfl, rfl, by decide⟩
